import Mathlib

/-!
Verification of the state-transition engine and frame-driver loop of the
`ld-game-engine` crate (`src/lib.rs`, `src/event.rs`).

Modelling conventions:
* The state stack is a `List S` whose HEAD is the TOP of the stack (the last
  element of the Rust `Vec`); `Vec::push` is cons, `Vec::pop` is uncons,
  `last_mut` is head.  States are opaque values of an arbitrary type `S`.
* User-supplied hooks (`on_pushed`, `on_popped`) may mutate arbitrary state,
  so their return values are supplied by an oracle stream
  `hook : Nat → StateTransition S`, indexed by invocation order: the n-th
  hook invocation performed by the resolver returns `hook n`.  This captures
  every possible behaviour of stateful user hooks.
* The resolver `while` loop is interpreted with explicit fuel; running out of
  fuel yields `Option.none` in the first component, a `panic!` or a failed
  `Option::unwrap` yields the corresponding `ResolveResult`.
* Observable hook invocations and state-object releases are recorded in a
  trace (second component), in the order in which they occur.
-/

namespace LdEngine

/-- Type `StateTransition` from `src/lib.rs`: the outcome a state hook may return.
The boxed `dyn GameState` payloads become opaque values of `S`. -/
inductive StateTransition (S : Type) where
  | none : StateTransition S
  | set : S → StateTransition S
  | push : S → StateTransition S
  | pop : StateTransition S
deriving DecidableEq

/-- Method `StateTransition::is_none` from `src/lib.rs`. -/
def StateTransition.is_none {S : Type} : StateTransition S → Bool
  | .none => true
  | _ => false

/-- How one call to `handle_transition` can end: the loop finishes normally
with a final stack, the explicit `panic!("Popped the last state!")` fires, or
an internal `Option::unwrap` fails (called on `None`). -/
inductive ResolveResult (S : Type) where
  | ok : List S → ResolveResult S
  | panicked : ResolveResult S
  | unwrapFailed : ResolveResult S
deriving DecidableEq

/-- Observable events of one resolver run: `enteredCall s` is an `on_pushed`
invocation on `s`, `exitedCall s` is an `on_popped` invocation on `s`, and
`dropState s` is the release (Rust `drop`) of the state object `s` by the
resolver itself.  (A popped state is moved into `on_popped` and released
inside user code, so no `dropState` is recorded for it.) -/
inductive HookEv (S : Type) where
  | enteredCall : S → HookEv S
  | exitedCall : S → HookEv S
  | dropState : S → HookEv S
deriving DecidableEq

/-- The `while let Some(transition) = next_transition.take()` loop of
`handle_transition` (`src/lib.rs` lines 151-173), with fuel.  Branches:
* `Set(state)`: `stack.last_mut().unwrap()` fails on an empty stack;
  otherwise `*last = state` releases the old top (drop happens at the
  assignment, before `on_pushed` runs), then `last.on_pushed(..)` supplies
  the next pending transition.
* `Push(state)`: pushes, then `on_pushed` on the new top supplies the next
  pending transition.
* `Pop`: `stack.pop().unwrap()` fails on an empty stack; otherwise
  `on_popped` runs on the removed top; if its result is not `Push(_)` and
  the stack is now empty, the explicit panic fires; otherwise the result is
  the next pending transition.
* `None`: the loop terminates with the current stack. -/
def resolveLoop {S : Type} :
    (Nat → StateTransition S) → Nat → StateTransition S → List S →
      Option (ResolveResult S) × List (HookEv S)
  | _, 0, _, _ => (Option.none, [])
  | _, _ + 1, .none, stack => (some (.ok stack), [])
  | _, _ + 1, .set _, [] => (some .unwrapFailed, [])
  | hook, fuel + 1, .set s, old :: rest =>
      let r := resolveLoop (fun n => hook (n + 1)) fuel (hook 0) (s :: rest)
      (r.1, .dropState old :: .enteredCall s :: r.2)
  | hook, fuel + 1, .push s, stack =>
      let r := resolveLoop (fun n => hook (n + 1)) fuel (hook 0) (s :: stack)
      (r.1, .enteredCall s :: r.2)
  | _, _ + 1, .pop, [] => (some .unwrapFailed, [])
  | hook, fuel + 1, .pop, old :: rest =>
      match hook 0, rest with
      | .push s, rest =>
          let r := resolveLoop (fun n => hook (n + 1)) fuel (.push s) rest
          (r.1, .exitedCall old :: r.2)
      | _, [] => (some .panicked, [.exitedCall old])
      | next, rest =>
          let r := resolveLoop (fun n => hook (n + 1)) fuel next rest
          (r.1, .exitedCall old :: r.2)

/-- Function `handle_transition` from `src/lib.rs` lines 144-174: the initial
`trn(stack.last_mut().unwrap(), ..)` call fails its unwrap on an empty
stack (before any hook runs); otherwise its result seeds the loop. -/
def handle_transition {S : Type} (trn : S → StateTransition S)
    (hook : Nat → StateTransition S) (fuel : Nat) (stack : List S) :
    Option (ResolveResult S) × List (HookEv S) :=
  match stack with
  | [] => (some .unwrapFailed, [])
  | top :: _ => resolveLoop hook fuel (trn top) stack

/-- One call performed by the per-tick dispatch closure of `run`
(`src/lib.rs` lines 226-235): an `on_event e` invocation or the final
`on_update` invocation. -/
inductive DispatchCall (E : Type) where
  | event : E → DispatchCall E
  | update : DispatchCall E
deriving DecidableEq

/-- Result of the per-tick dispatch closure: the adopted outcome, the calls
made (in order), and the events left in the queue (in push order). -/
structure DispatchResult (S E : Type) where
  outcome : StateTransition S
  calls : List (DispatchCall E)
  queue : List E
deriving DecidableEq

/-- The event queue is a `Vec<Event>`: `push` appends at the end.  Queues are
lists in push (arrival) order. -/
def vec_push {E : Type} (q : List E) (e : E) : List E := q ++ [e]

/-- Operation `Vec::pop`: removes and returns the last (most recently pushed) element,
or `Option.none` when the queue is empty. -/
def vec_pop {E : Type} (q : List E) : Option E × List E :=
  (q.getLast?, q.dropLast)

/-- The dispatch closure of `run` (`src/lib.rs` lines 226-235): loop popping
the newest event off the queue and feeding it to the active state's
`on_event`; a non-`None` result breaks the loop with that outcome; once the
queue is empty, break with the result of `on_update`.  `on_event` results
are modelled by a function of the event (events may carry arbitrary identity,
so this loses no generality). -/
def dispatchLoop {S E : Type} (on_event : E → StateTransition S)
    (on_update : StateTransition S) (q : List E) : DispatchResult S E :=
  match h : q.getLast? with
  | Option.none => ⟨on_update, [.update], []⟩
  | some e =>
      match on_event e with
      | .none =>
          let r := dispatchLoop on_event on_update q.dropLast
          ⟨r.outcome, .event e :: r.calls, r.queue⟩
      | x => ⟨x, [.event e], q.dropLast⟩
termination_by q.length
decreasing_by
  all_goals
    cases q with
    | nil => simp at h
    | cons a as => simp [List.length_dropLast]

/-- The persisted-storage world: the blob stored under the fixed `"data"`
key of local storage (if any), and the in-memory storage value. -/
structure StorageWorld (D : Type) where
  persisted : Option String
  mem : D
deriving DecidableEq

/-- Function `get_data` from `src/lib.rs` lines 48-57:
`storage.get("data").and_then(|s| serde_json::from_str(&s).ok()).unwrap_or_default()`.
Deserialization `de` and the default value `dflt` are parameters. -/
def get_data {D : Type} (de : String → Option D) (dflt : D)
    (persisted : Option String) : D :=
  (persisted.bind fun s => de s).getD dflt

/-- Function `set_data` from `src/lib.rs` lines 59-66: store the serialized value
under the fixed key, replacing whatever was there. -/
def set_data {D : Type} (ser : D → String) (v : D) : Option String :=
  some (ser v)

/-- Method `Context::set_storage` from `src/lib.rs` lines 138-141: persist
immediately via `set_data`, then replace the in-memory value. -/
def set_storage {D : Type} (ser : D → String) (_w : StorageWorld D) (v : D) :
    StorageWorld D :=
  { persisted := set_data ser v, mem := v }

/-- Startup (`src/lib.rs` line 186, `let mut storage = get_data();`): load
the in-memory value from whatever blob is persisted. -/
def startup {D : Type} (de : String → Option D) (dflt : D)
    (persisted : Option String) : StorageWorld D :=
  { persisted := persisted, mem := get_data de dflt persisted }

/-- Type `MouseButton` from `src/event.rs` lines 144-151. -/
inductive MouseButton where
  | left
  | middle
  | right
  | back
  | forward
deriving DecidableEq

/-- Function `MouseButton::from_code` from `src/event.rs` lines 154-163 (the argument
is the `i16` `MouseEvent::button` code). -/
def MouseButton.from_code (code : Int) : Option MouseButton :=
  if code = 0 then some .left
  else if code = 1 then some .middle
  else if code = 2 then some .right
  else if code = 3 then some .back
  else if code = 4 then some .forward
  else Option.none

/-- Function `MouseButton::from_bitmap` from `src/event.rs` lines 165-184 (the
argument is the `u16` `MouseEvent::buttons` bitmap, as a `Nat`). -/
def MouseButton.from_bitmap (bits : Nat) : List MouseButton :=
  let buttons : List MouseButton := []
  let buttons := if bits &&& 1 ≠ 0 then buttons ++ [.left] else buttons
  let buttons := if bits &&& 2 ≠ 0 then buttons ++ [.right] else buttons
  let buttons := if bits &&& 4 ≠ 0 then buttons ++ [.middle] else buttons
  let buttons := if bits &&& 8 ≠ 0 then buttons ++ [.back] else buttons
  let buttons := if bits &&& 16 ≠ 0 then buttons ++ [.forward] else buttons
  buttons

/-- The bit of the `buttons` bitmap that `from_bitmap` tests for each
button (spec-side description of the bitmap numbering). -/
def bitmapBit : MouseButton → Nat
  | .left => 1
  | .right => 2
  | .middle => 4
  | .back => 8
  | .forward => 16

/-- The mouse variants of `Event` from `src/event.rs` lines 196-213 that the
pointer-button handlers construct; positions are opaque values of `P` (the
coordinate transform is external browser behaviour). -/
inductive MEvent (P : Type) where
  | mouseDown : P → MouseButton → MEvent P
  | mouseUp : P → MouseButton → MEvent P
deriving DecidableEq

/-- The `"mousedown"` listener of `setup_pointer_events` (`src/event.rs`
lines 79-87): when `from_code` returns `None` the closure returns early and
nothing is pushed onto the event queue; otherwise the event is pushed. -/
def on_mousedown {P : Type} (queue : List (MEvent P)) (pos : P) (code : Int) :
    List (MEvent P) :=
  match MouseButton.from_code code with
  | some b => vec_push queue (.mouseDown pos b)
  | Option.none => queue

/-- The `"mouseup"` listener of `setup_pointer_events` (`src/event.rs`
lines 67-75), same early-return shape as `"mousedown"`. -/
def on_mouseup {P : Type} (queue : List (MEvent P)) (pos : P) (code : Int) :
    List (MEvent P) :=
  match MouseButton.from_code code with
  | some b => vec_push queue (.mouseUp pos b)
  | Option.none => queue

/-- Loop invariant of the resolver: as long as the stack is non-empty or the
pending transition is a `Push`, no internal `unwrap` can fail, and a normal
return leaves a non-empty stack. -/
theorem resolveLoop_invariant {S : Type} (fuel : Nat) :
    ∀ (hook : Nat → StateTransition S) (pending : StateTransition S)
      (stack : List S),
      stack ≠ [] ∨ (∃ s, pending = StateTransition.push s) →
      (resolveLoop hook fuel pending stack).1 ≠ some .unwrapFailed ∧
        ∀ out, (resolveLoop hook fuel pending stack).1 = some (.ok out) →
          out ≠ [] := by
  induction fuel with
  | zero => intro hook pending stack _; simp [resolveLoop]
  | succ fuel ih =>
    intro hook pending stack hinv
    match pending with
    | .none =>
        rcases hinv with h | ⟨s, hs⟩
        · constructor
          · simp [resolveLoop]
          · intro out hout
            simp [resolveLoop] at hout
            exact hout ▸ h
        · exact absurd hs (by simp)
    | .set s =>
        match stack with
        | [] =>
            rcases hinv with h | ⟨t, ht⟩
            · exact absurd rfl h
            · exact absurd ht (by simp)
        | old :: rest =>
            simpa [resolveLoop] using
              ih (fun n => hook (n + 1)) (hook 0) (s :: rest) (Or.inl (by simp))
    | .push s =>
        simpa [resolveLoop] using
          ih (fun n => hook (n + 1)) (hook 0) (s :: stack) (Or.inl (by simp))
    | .pop =>
        match stack with
        | [] =>
            rcases hinv with h | ⟨t, ht⟩
            · exact absurd rfl h
            · exact absurd ht (by simp)
        | old :: rest =>
            match hh : hook 0, rest with
            | .push t, rest =>
                simpa [resolveLoop, hh] using
                  ih (fun n => hook (n + 1)) (.push t) rest (Or.inr ⟨t, rfl⟩)
            | .none, [] => simp [resolveLoop, hh]
            | .set t, [] => simp [resolveLoop, hh]
            | .pop, [] => simp [resolveLoop, hh]
            | .none, x :: xs =>
                simpa [resolveLoop, hh] using
                  ih (fun n => hook (n + 1)) .none (x :: xs) (Or.inl (by simp))
            | .set t, x :: xs =>
                simpa [resolveLoop, hh] using
                  ih (fun n => hook (n + 1)) (.set t) (x :: xs) (Or.inl (by simp))
            | .pop, x :: xs =>
                simpa [resolveLoop, hh] using
                  ih (fun n => hook (n + 1)) .pop (x :: xs) (Or.inl (by simp))

/-- C1: for every finite sequence of transition outcomes applied through the
resolver starting from a non-empty state stack, when the resolver returns
normally (`ResolveResult.ok`) the resulting stack is non-empty; the resolver
never returns normally with an empty stack. -/
theorem c1_resolver_keeps_stack_nonempty {S : Type} (trn : S → StateTransition S)
    (hook : Nat → StateTransition S) (fuel : Nat) (stack out : List S)
    (hne : stack ≠ [])
    (hok : (handle_transition trn hook fuel stack).1 = some (.ok out)) :
    out ≠ [] := by
  match stack with
  | [] => exact absurd rfl hne
  | top :: rest =>
      exact (resolveLoop_invariant fuel hook (trn top) (top :: rest)
        (Or.inl (by simp))).2 out hok

/-- Witness for C1: a concrete resolver run from stack `[1]` whose single
transition pushes `2`, ending normally with the non-empty stack `[2, 1]`. -/
theorem c1_witness : ([2, 1] : List Nat) ≠ [] :=
  c1_resolver_keeps_stack_nonempty (fun _ => StateTransition.push 2)
    (fun _ => StateTransition.none) 3 [1] [2, 1] (by decide) (by decide)

/-- C9: `handle_transition` has the implicit precondition that the stack is
non-empty on entry: under it no internal `unwrap` can fail; called on an
empty stack it fails the very first unwrap, before invoking any hook (the
trace is empty). -/
theorem c9_unwraps_safe_on_nonempty {S : Type} (trn : S → StateTransition S)
    (hook : Nat → StateTransition S) (fuel : Nat) (stack : List S) :
    (stack ≠ [] →
      (handle_transition trn hook fuel stack).1 ≠ some .unwrapFailed)
    ∧ handle_transition trn hook fuel ([] : List S) =
        (some .unwrapFailed, []) := by
  constructor
  · intro hne
    match stack with
    | [] => exact absurd rfl hne
    | top :: rest =>
        exact (resolveLoop_invariant fuel hook (trn top) (top :: rest)
          (Or.inl (by simp))).1
  · rfl

/-- Witness for C9: a concrete run from `[1]` that pops the last state with a
non-`Push` follow-up — it ends in the explicit panic, not a failed unwrap. -/
theorem c9_witness :
    (handle_transition (fun _ => StateTransition.pop)
      (fun _ => StateTransition.none) 3 ([1] : List Nat)).1 ≠
      some .unwrapFailed :=
  (c9_unwraps_safe_on_nonempty (fun _ => StateTransition.pop)
    (fun _ => StateTransition.none) 3 [1]).1 (by decide)

/-- C2: when the resolver applies `Pop` to a one-element stack, resolution
continues normally exactly when the popped state's `on_popped` outcome is
`Push(..)`; for `None`, `Set` or another `Pop` the explicit panic fires
instead, right after the `on_popped` call. -/
theorem c2_pop_last_needs_push {S : Type} (hook : Nat → StateTransition S)
    (fuel : Nat) (s : S) :
    ((∃ t, hook 0 = StateTransition.push t) →
      resolveLoop hook (fuel + 1) StateTransition.pop [s] =
        ((resolveLoop (fun n => hook (n + 1)) fuel (hook 0) []).1,
          HookEv.exitedCall s ::
            (resolveLoop (fun n => hook (n + 1)) fuel (hook 0) []).2))
    ∧ ((∀ t, hook 0 ≠ StateTransition.push t) →
      resolveLoop hook (fuel + 1) StateTransition.pop [s] =
        (some .panicked, [HookEv.exitedCall s])) := by
  constructor
  · rintro ⟨t, ht⟩
    simp [resolveLoop, ht]
  · intro hnp
    match hh : hook 0 with
    | .none => simp [resolveLoop, hh]
    | .set t => simp [resolveLoop, hh]
    | .push t => exact absurd hh (hnp t)
    | .pop => simp [resolveLoop, hh]

/-- Witness for C2: popping the last state with an `on_popped` returning
`Push 5` continues (refilling the stack to `[5]`), while one returning
`None` panics. -/
theorem c2_witness :
    resolveLoop (fun n => if n = 0 then StateTransition.push (5 : Nat)
        else StateTransition.none) 3 StateTransition.pop [1] =
      (some (.ok [5]), [HookEv.exitedCall 1, HookEv.enteredCall 5])
    ∧ resolveLoop (fun _ => (StateTransition.none : StateTransition Nat)) 3
        StateTransition.pop [1] =
      (some .panicked, [HookEv.exitedCall 1]) := by
  constructor
  · have h := (c2_pop_last_needs_push (fun n => if n = 0 then
      StateTransition.push (5 : Nat) else StateTransition.none) 2 1).1
      ⟨5, rfl⟩
    rw [h]
    decide
  · exact (c2_pop_last_needs_push (fun _ => (StateTransition.none :
      StateTransition Nat)) 2 1).2 (fun t h => by cases h)

/-- If the `j`-th hook invocation returns `None`, the resolver loop finishes
(normally or fatally) within `j + 2` iterations: each iteration either stops
or consumes one hook invocation, and a pending `None` stops immediately. -/
theorem resolveLoop_finishes_of_hook_none {S : Type} :
    ∀ (fuel j : Nat) (hook : Nat → StateTransition S)
      (pending : StateTransition S) (stack : List S),
      hook j = StateTransition.none → j + 2 ≤ fuel →
      ((resolveLoop hook fuel pending stack).1).isSome = true := by
  intro fuel
  induction fuel with
  | zero => intro j hook pending stack _ hle; omega
  | succ fuel ih =>
    intro j hook pending stack hnone hle
    match pending with
    | .none => simp [resolveLoop]
    | .set s =>
      match stack with
      | [] => simp [resolveLoop]
      | old :: rest =>
        simp only [resolveLoop]
        match j with
        | 0 =>
            rw [hnone]
            match fuel, hle with
            | f + 1, _ => simp [resolveLoop]
        | j + 1 =>
            exact ih j (fun n => hook (n + 1)) (hook 0) (s :: rest) hnone
              (by omega)
    | .push s =>
        simp only [resolveLoop]
        match j with
        | 0 =>
            rw [hnone]
            match fuel, hle with
            | f + 1, _ => simp [resolveLoop]
        | j + 1 =>
            exact ih j (fun n => hook (n + 1)) (hook 0) (s :: stack) hnone
              (by omega)
    | .pop =>
      match stack with
      | [] => simp [resolveLoop]
      | old :: rest =>
        match j with
        | 0 =>
            match rest with
            | [] => simp [resolveLoop, hnone]
            | x :: xs =>
                simp only [resolveLoop, hnone]
                match fuel, hle with
                | f + 1, _ => simp [resolveLoop]
        | j + 1 =>
            match hh : hook 0, rest with
            | .push t, rest =>
                simpa [resolveLoop, hh] using
                  ih j (fun n => hook (n + 1)) (.push t) rest hnone (by omega)
            | .none, [] => simp [resolveLoop, hh]
            | .set t, [] => simp [resolveLoop, hh]
            | .pop, [] => simp [resolveLoop, hh]
            | .none, x :: xs =>
                simpa [resolveLoop, hh] using
                  ih j (fun n => hook (n + 1)) .none (x :: xs) hnone (by omega)
            | .set t, x :: xs =>
                simpa [resolveLoop, hh] using
                  ih j (fun n => hook (n + 1)) (.set t) (x :: xs) hnone
                    (by omega)
            | .pop, x :: xs =>
                simpa [resolveLoop, hh] using
                  ih j (fun n => hook (n + 1)) .pop (x :: xs) hnone (by omega)

/-- C7: a pending outcome of `None` terminates resolution at once with the
stack unchanged; and whenever some hook invocation (the `j`-th) returns
`None` — i.e. the chain of non-`None` outcomes is finite — the resolver loop
finishes in finitely many steps (fuel `j + 2` already suffices, so the loop
never runs forever). -/
theorem c7_resolution_terminates {S : Type} (hook : Nat → StateTransition S)
    (fuel j : Nat) (pending : StateTransition S) (stack : List S) :
    resolveLoop hook (fuel + 1) StateTransition.none stack =
      (some (.ok stack), [])
    ∧ (hook j = StateTransition.none → j + 2 ≤ fuel →
        ((resolveLoop hook fuel pending stack).1).isSome = true) := by
  constructor
  · simp [resolveLoop]
  · intro hnone hle
    exact resolveLoop_finishes_of_hook_none fuel j hook pending stack hnone hle

/-- Witness for C7: a run whose second hook invocation returns `None`
finishes within fuel `3`. -/
theorem c7_witness :
    ((resolveLoop (fun n => if n = 0 then StateTransition.push (2 : Nat)
        else StateTransition.none) 3 StateTransition.pop [1, 4]).1).isSome
      = true :=
  (c7_resolution_terminates (fun n => if n = 0 then
      StateTransition.push (2 : Nat) else StateTransition.none)
    3 1 StateTransition.pop [1, 4]).2 (by decide) (by decide)

/-- C3 (amended): when the resolver applies `Set(new_state)` to a stack with
top `old`, the step invokes no `exited` hook at all, invokes `entered` on
`new_state` immediately with its result (the next hook outcome) becoming
the next pending transition — but the old state object is released at the
replacement assignment, BEFORE the `entered` hook of the replacement runs. -/
theorem c3_set_drop_before_entered {S : Type} (hook : Nat → StateTransition S)
    (fuel : Nat) (s old : S) (rest : List S) :
    resolveLoop hook (fuel + 1) (StateTransition.set s) (old :: rest) =
      ((resolveLoop (fun n => hook (n + 1)) fuel (hook 0) (s :: rest)).1,
        HookEv.dropState old :: HookEv.enteredCall s ::
          (resolveLoop (fun n => hook (n + 1)) fuel (hook 0) (s :: rest)).2)
    ∧ (∀ x, HookEv.exitedCall x ∉
        [HookEv.dropState old, HookEv.enteredCall s]) := by
  constructor
  · simp [resolveLoop]
  · intro x
    simp

/-- Counterexample for C3 as stated: in the concrete run `Set 7` on stack
`[0, 1]`, the trace is `[dropState 0, enteredCall 7]` — the old top `0` is
released strictly BEFORE the replacement's `entered` hook is invoked, not
after it. -/
theorem c3_counterexample :
    (resolveLoop (fun _ => (StateTransition.none : StateTransition Nat)) 2
        (StateTransition.set 7) [0, 1]).2 =
      [HookEv.dropState 0, HookEv.enteredCall 7]
    ∧ List.indexOf (HookEv.dropState (0 : Nat))
        ((resolveLoop (fun _ => (StateTransition.none : StateTransition Nat)) 2
          (StateTransition.set 7) [0, 1]).2) <
      List.indexOf (HookEv.enteredCall (7 : Nat))
        ((resolveLoop (fun _ => (StateTransition.none : StateTransition Nat)) 2
          (StateTransition.set 7) [0, 1]).2) := by
  constructor
  · decide
  · decide

/-- Unfolding: dispatching an empty queue calls `on_update` only. -/
theorem dispatchLoop_nil {S E : Type} (oe : E → StateTransition S)
    (ou : StateTransition S) :
    dispatchLoop oe ou ([] : List E) = ⟨ou, [.update], []⟩ := by
  unfold dispatchLoop
  simp

/-- Unfolding: when the newest event is handled with `None`, dispatch
continues on the rest of the queue. -/
theorem dispatchLoop_concat_none {S E : Type} (oe : E → StateTransition S)
    (ou : StateTransition S) (q : List E) (e : E)
    (h : oe e = StateTransition.none) :
    dispatchLoop oe ou (q ++ [e]) =
      ⟨(dispatchLoop oe ou q).outcome,
        DispatchCall.event e :: (dispatchLoop oe ou q).calls,
        (dispatchLoop oe ou q).queue⟩ := by
  rw [dispatchLoop]
  split
  · next hnone =>
      rw [List.getLast?_concat] at hnone
      cases hnone
  · next e1 hsome =>
      rw [List.getLast?_concat] at hsome
      injection hsome with he1
      subst he1
      simp [List.dropLast_concat, h]

/-- Unfolding: a non-`None` result on the newest event stops draining and is
adopted as the outcome. -/
theorem dispatchLoop_concat_stop {S E : Type} (oe : E → StateTransition S)
    (ou : StateTransition S) (q : List E) (e : E)
    (h : oe e ≠ StateTransition.none) :
    dispatchLoop oe ou (q ++ [e]) = ⟨oe e, [DispatchCall.event e], q⟩ := by
  rw [dispatchLoop]
  split
  · next hnone =>
      rw [List.getLast?_concat] at hnone
      cases hnone
  · next e1 hsome =>
      rw [List.getLast?_concat] at hsome
      injection hsome with he1
      subst he1
      match hx : oe e with
      | .none => exact absurd hx h
      | .set s => simp [List.dropLast_concat, hx]
      | .push s => simp [List.dropLast_concat, hx]
      | .pop => simp [List.dropLast_concat, hx]

/-- If every queued event is handled with `None`, dispatch drains the whole
queue newest-first and falls through to `on_update`. -/
theorem dispatchLoop_all_none {S E : Type} (oe : E → StateTransition S)
    (ou : StateTransition S) :
    ∀ (q : List E), (∀ x ∈ q, oe x = StateTransition.none) →
      dispatchLoop oe ou q =
        ⟨ou, q.reverse.map DispatchCall.event ++ [.update], []⟩ := by
  intro q
  induction q using List.reverseRecOn with
  | nil => intro _; simp [dispatchLoop_nil]
  | append_singleton q e ih =>
    intro hall
    have he : oe e = StateTransition.none := hall e (by simp)
    rw [dispatchLoop_concat_none oe ou q e he,
      ih (fun x hx => hall x (by simp [hx]))]
    simp

/-- Hook `on_update` is called exactly when every queued event was handled with
`None`. -/
theorem dispatchLoop_update_iff {S E : Type} (oe : E → StateTransition S)
    (ou : StateTransition S) :
    ∀ (q : List E),
      DispatchCall.update ∈ (dispatchLoop oe ou q).calls ↔
        ∀ x ∈ q, oe x = StateTransition.none := by
  intro q
  induction q using List.reverseRecOn with
  | nil => simp [dispatchLoop_nil]
  | append_singleton q e ih =>
    match he : oe e with
    | .none =>
        rw [dispatchLoop_concat_none oe ou q e he]
        simp only [List.mem_cons]
        constructor
        · rintro (h | h)
          · cases h
          · intro x hx
            rcases List.mem_append.1 hx with hx | hx
            · exact (ih.1 h) x hx
            · simp at hx
              rw [hx, he]
        · intro hall
          exact Or.inr (ih.2 (fun x hx => hall x (by simp [hx])))
    | .set s =>
        rw [dispatchLoop_concat_stop oe ou q e (by simp [he])]
        refine iff_of_false (by simp) ?_
        intro hall
        have hx := hall e (by simp)
        rw [hx] at he
        cases he
    | .push s =>
        rw [dispatchLoop_concat_stop oe ou q e (by simp [he])]
        refine iff_of_false (by simp) ?_
        intro hall
        have hx := hall e (by simp)
        rw [hx] at he
        cases he
    | .pop =>
        rw [dispatchLoop_concat_stop oe ou q e (by simp [he])]
        refine iff_of_false (by simp) ?_
        intro hall
        have hx := hall e (by simp)
        rw [hx] at he
        cases he

/-- The first (newest-first) event handled with a non-`None` outcome stops
the draining: later-pushed events are consumed with `None`, the stopping
event's outcome is adopted, and the earlier-pushed events stay queued. -/
theorem dispatchLoop_shortcircuit {S E : Type} (oe : E → StateTransition S)
    (ou : StateTransition S) :
    ∀ (post front : List E) (e : E),
      (∀ x ∈ post, oe x = StateTransition.none) →
      oe e ≠ StateTransition.none →
      dispatchLoop oe ou (front ++ e :: post) =
        ⟨oe e, post.reverse.map DispatchCall.event ++ [DispatchCall.event e],
          front⟩ := by
  intro post
  induction post using List.reverseRecOn with
  | nil =>
    intro front e _ hne
    exact dispatchLoop_concat_stop oe ou front e hne
  | append_singleton post x ih =>
    intro front e hall hne
    have hx : oe x = StateTransition.none := hall x (by simp)
    have : front ++ e :: (post ++ [x]) = (front ++ e :: post) ++ [x] := by
      simp
    rw [this, dispatchLoop_concat_none oe ou (front ++ e :: post) x hx,
      ih front e (fun y hy => hall y (by simp [hy])) hne]
    simp

/-- C4: within one tick, `on_update` is invoked iff every dispatched event's
`on_event` returned `None`; the first non-`None` result (in newest-first
order) stops the draining of remaining events, and that outcome — not
`on_update`'s — becomes the tick's pending outcome. -/
theorem c4_update_iff_events_none {S E : Type} (oe : E → StateTransition S)
    (ou : StateTransition S) (queue front post : List E) (e : E) :
    (DispatchCall.update ∈ (dispatchLoop oe ou queue).calls ↔
      ∀ x ∈ queue, oe x = StateTransition.none)
    ∧ ((∀ x ∈ queue, oe x = StateTransition.none) →
        dispatchLoop oe ou queue =
          ⟨ou, queue.reverse.map DispatchCall.event ++ [.update], []⟩)
    ∧ (queue = front ++ e :: post →
        (∀ x ∈ post, oe x = StateTransition.none) →
        oe e ≠ StateTransition.none →
        dispatchLoop oe ou queue =
          ⟨oe e, post.reverse.map DispatchCall.event ++ [.event e], front⟩) := by
  refine ⟨dispatchLoop_update_iff oe ou queue,
    dispatchLoop_all_none oe ou queue, ?_⟩
  intro hq hall hne
  rw [hq]
  exact dispatchLoop_shortcircuit oe ou post front e hall hne

/-- Witness for C4: with events `[1, 2, 3]` (push order) and a handler that
returns `Pop` only on event `2`, event `3` is consumed with `None`, event
`2` short-circuits, `1` stays queued, and `on_update` is not called. -/
theorem c4_witness :
    dispatchLoop (fun x => if x = 2 then StateTransition.pop
        else (StateTransition.none : StateTransition Nat))
      StateTransition.none [1, 2, 3] =
      ⟨StateTransition.pop, [.event 3, .event 2], [1]⟩ := by
  have h := (c4_update_iff_events_none
    (fun x => if x = 2 then StateTransition.pop
      else (StateTransition.none : StateTransition Nat))
    StateTransition.none [1, 2, 3] [1] [3] 2).2.2 (by decide) (by decide)
    (by decide)
  simpa using h

/-- C5: the event queue is drained last-in-first-out: `push` appends,
removal returns the most recently pushed event (or signals empty), and
events pushed in order `e1, e2, e3` are delivered to `on_event` in order
`e3, e2, e1` within one tick. -/
theorem c5_queue_is_lifo {S E : Type} (oe : E → StateTransition S)
    (ou : StateTransition S) (q : List E) (e e1 e2 e3 : E) :
    vec_pop (vec_push q e) = (some e, q)
    ∧ vec_pop ([] : List E) = (Option.none, [])
    ∧ (oe e1 = StateTransition.none → oe e2 = StateTransition.none →
        oe e3 = StateTransition.none →
        (dispatchLoop oe ou (vec_push (vec_push (vec_push [] e1) e2) e3)).calls
          = [.event e3, .event e2, .event e1, .update]) := by
  refine ⟨?_, rfl, ?_⟩
  · simp [vec_pop, vec_push, List.getLast?_concat, List.dropLast_concat]
  · intro h1 h2 h3
    have : vec_push (vec_push (vec_push ([] : List E) e1) e2) e3
        = [e1, e2, e3] := by
      simp [vec_push]
    rw [this, dispatchLoop_all_none oe ou [e1, e2, e3] ?_]
    · simp
    · intro x hx
      simp only [List.mem_cons, List.not_mem_nil, or_false] at hx
      rcases hx with rfl | rfl | rfl <;> assumption

/-- Witness for C5: three numbered events, all handled with `None`, are
delivered newest-first. -/
theorem c5_witness :
    (dispatchLoop (fun _ => (StateTransition.none : StateTransition Nat))
        StateTransition.none
        (vec_push (vec_push (vec_push [] (10 : Nat)) 20) 30)).calls =
      [.event 30, .event 20, .event 10, .update] :=
  (c5_queue_is_lifo (fun _ => (StateTransition.none : StateTransition Nat))
    StateTransition.none [] 0 10 20 30).2.2 rfl rfl rfl

/-- C6: `set_storage v` serializes and persists `v` immediately and replaces
the in-memory value; a subsequent simulated restart (running `get_data` on
the persisted blob) loads a value equal to `v` whenever deserialization
round-trips serialization; with no prior `set_storage` (nothing persisted),
or with a persisted blob that fails to parse, startup loads the default. -/
theorem c6_storage_roundtrip {D : Type} (ser : D → String)
    (de : String → Option D) (dflt : D) (w : StorageWorld D) (v : D)
    (s : String) (hrt : ∀ x, de (ser x) = some x) :
    (set_storage ser w v).persisted = some (ser v)
    ∧ (set_storage ser w v).mem = v
    ∧ (startup de dflt (set_storage ser w v).persisted).mem = v
    ∧ (startup de dflt Option.none).mem = dflt
    ∧ (de s = Option.none → (startup de dflt (some s)).mem = dflt) := by
  refine ⟨rfl, rfl, ?_, rfl, ?_⟩
  · simp [startup, set_storage, set_data, get_data, hrt]
  · intro h
    simp [startup, get_data, h]

/-- Witness for C6: a boolean storage type with an explicit serializer whose
deserializer round-trips; after `set_storage true`, a simulated restart
loads `true`. -/
theorem c6_witness :
    (startup (fun s => if s = "1" then some true
        else if s = "0" then some false else Option.none) false
      (set_storage (fun b => if b then "1" else "0")
        ⟨Option.none, false⟩ true).persisted).mem = true :=
  (c6_storage_roundtrip (fun b => if b then "1" else "0")
    (fun s => if s = "1" then some true
      else if s = "0" then some false else Option.none)
    false ⟨Option.none, false⟩ true "x" (by decide)).2.2.1

/-- C8: a pointer-button-down/up occurrence whose raw code is not one of the
five recognized codes 0..4 maps to no `MouseButton`, and the listener's
early return leaves the event queue unchanged — no event is appended, so no
state callback can ever see it; the occurrence is silently dropped. -/
theorem c8_unknown_button_dropped {P : Type} (queue : List (MEvent P))
    (pos : P) (code : Int)
    (h : code ≠ 0 ∧ code ≠ 1 ∧ code ≠ 2 ∧ code ≠ 3 ∧ code ≠ 4) :
    MouseButton.from_code code = Option.none
    ∧ on_mousedown queue pos code = queue
    ∧ on_mouseup queue pos code = queue := by
  obtain ⟨h0, h1, h2, h3, h4⟩ := h
  have hc : MouseButton.from_code code = Option.none := by
    simp [MouseButton.from_code, h0, h1, h2, h3, h4]
  exact ⟨hc, by simp [on_mousedown, hc], by simp [on_mouseup, hc]⟩

/-- Witness for C8: button code `5` is dropped without touching the queue. -/
theorem c8_witness :
    MouseButton.from_code 5 = Option.none
    ∧ on_mousedown ([] : List (MEvent Unit)) () 5 = []
    ∧ on_mouseup ([] : List (MEvent Unit)) () 5 = [] :=
  c8_unknown_button_dropped [] () 5 (by decide)

/-- C10: `from_bitmap` returns the pressed buttons in the fixed order
`Left, Right, Middle, Back, Forward`, testing bit 1 for Left, 2 for Right,
4 for Middle, 8 for Back and 16 for Forward — a numbering that differs from
`from_code`, where code 1 is Middle and code 2 is Right (so the button for
bitmap bit 2 disagrees with the button for code 1, and likewise for bit 4
versus code 2). -/
theorem filter_five_buttons (p : MouseButton → Bool) :
    List.filter p [MouseButton.left, .right, .middle, .back, .forward] =
      (if p .left then [MouseButton.left] else []) ++
        (if p .right then [MouseButton.right] else []) ++
        (if p .middle then [MouseButton.middle] else []) ++
        (if p .back then [MouseButton.back] else []) ++
        (if p .forward then [MouseButton.forward] else []) := by
  cases hl : p .left <;> cases hr : p .right <;> cases hm : p .middle <;>
    cases hb : p .back <;> cases hf : p .forward <;>
    simp [List.filter, hl, hr, hm, hb, hf]

theorem c10_bitmap_vs_code (bits : Nat) :
    MouseButton.from_bitmap bits =
      [MouseButton.left, .right, .middle, .back, .forward].filter
        (fun b => decide (bits &&& bitmapBit b ≠ 0))
    ∧ MouseButton.from_code 1 = some .middle
    ∧ MouseButton.from_code 2 = some .right
    ∧ MouseButton.from_bitmap 2 = [.right]
    ∧ MouseButton.from_bitmap 4 = [.middle] := by
  refine ⟨?_, by decide, by decide, by decide, by decide⟩
  rw [filter_five_buttons]
  simp only [MouseButton.from_bitmap, bitmapBit, ne_eq]
  by_cases h1 : bits &&& 1 = 0 <;> by_cases h2 : bits &&& 2 = 0 <;>
    by_cases h4 : bits &&& 4 = 0 <;> by_cases h8 : bits &&& 8 = 0 <;>
    by_cases h16 : bits &&& 16 = 0 <;>
    simp only [h1, h2, h4, h8, h16, not_false_iff, decide_True, decide_False,
      decide_not, Bool.not_true, Bool.not_false, if_true, if_false] <;>
    simp

end LdEngine
